import Mathlib

/-!
# Verification of the UN Comtrade connector (`src/ingest/trade_data.py`)

This file shallowly embeds the connector's core logic in Lean 4 and settles the
frozen claims about it:

* decimal string keys (`taskKey`, from the f-string `"{code}_{year}_{flow}"`);
* the reporter reference-list filter (`fetch_reporters`);
* the retry/backoff state machine (`fetch_trade_data`), driven by an explicit
  list of HTTP response outcomes (one per attempted request);
* the resumable fetch loop of `run` (task enumeration, resume filter,
  per-entity batch flush, checkpoint writes), modelled as an event trace.

Machine integers are `Nat` (Python integers are unbounded, so no wrap-around
modelling is needed); Python's `str(int)` is `Nat.repr`; JSON objects are
association lists of `(String × JVal)` pairs; the mutable completed-set is a
`Finset String`.
-/

namespace UnComtrade

/-! ## Definitions

### JSON values and records

Fetched trade records are opaque JSON objects; the connector only ever moves
them around, so an association list of string-keyed JSON values is enough. -/

/-- A JSON scalar value, as produced by `response.json()`.  The reference data
the connector inspects (`entryExpiredDate`, `isGroup`, `reporterCode`, ...)
only involves scalars. -/
inductive JVal where
  | null
  | bool (b : Bool)
  | num (n : Int)
  | str (s : String)
deriving DecidableEq

/-- Python truthiness of a JSON scalar (`if r.get(...)`). -/
def truthy : JVal → Bool
  | .null => false
  | .bool b => b
  | .num n => decide (n ≠ 0)
  | .str s => decide (s ≠ "")

/-- A JSON object: an association list from field names to values. -/
abbrev Entry := List (String × JVal)

/-- Python `r[k]` minus the KeyError: `none` when the field is absent. -/
def jget (r : Entry) (k : String) : Option JVal :=
  (r.find? (fun p => p.1 == k)).map (fun p => p.2)

/-- Python `r.get(k)`: the field's value, or `None` when absent. -/
def jgetD (r : Entry) (k : String) : JVal :=
  (jget r k).getD .null

/-- One raw trade-flow record: an opaque JSON object. -/
abbrev TradeRecord := Entry

/-! ### `fetch_reporters` (source lines 30–51)

The reporter list is fetched once and filtered: entries with a truthy
`entryExpiredDate` or a truthy `isGroup` are skipped; the rest are projected to
`{code, name, iso3}` dicts.  A kept entry missing `reporterCode` or
`reporterDesc` raises a `KeyError` in Python, modelled as `Except.error`. -/

/-- The projection of one kept reporter entry, as built on source lines 44–48. -/
structure ReporterEntry where
  code : JVal
  name : JVal
  iso3 : JVal
deriving DecidableEq

/-- The filter/projection loop of `fetch_reporters` over the parsed `results`
array. -/
def fetch_reporters : List Entry → Except Unit (List ReporterEntry)
  | [] => .ok []
  | r :: rest =>
    if truthy (jgetD r "entryExpiredDate") then fetch_reporters rest
    else if truthy (jgetD r "isGroup") then fetch_reporters rest
    else
      match jget r "reporterCode", jget r "reporterDesc" with
      | some c, some nm =>
        (fetch_reporters rest).map
          (fun l => ⟨c, nm, (jget r "reporterCodeIsoAlpha3").getD (JVal.str "")⟩ :: l)
      | _, _ => .error ()

/-! ### `fetch_trade_data` (source lines 54–107)

The function issues one HTTP GET, classifies the response, and either returns
records or recurses with `retry_count + 1`.  The network is modelled as a list
of response outcomes, one consumed per attempted request; an empty list means
the scenario supplies no further responses (`fuelOut` — 429 retries are
unbounded, so a total Lean function needs this case).  A transport-level
exception from `get`, and a `.json()` parse failure on a 200 body, have no
handler in the source: they abort the call, modelled as outcome `raised`. -/

/-- The parsed body of an HTTP response: either `.json()` raises, or it yields
an object whose `data` field may be absent. -/
inductive JBody where
  | malformed
  | obj (data : Option (List TradeRecord))
deriving DecidableEq

/-- The outcome of one `get` call: a transport-level exception, or a response
with a status code and a body. -/
inductive HResp where
  | exn
  | mk (status : Nat) (body : JBody)
deriving DecidableEq

/-- How one call to `fetch_trade_data` resolves for its caller. -/
inductive FetchOutcome where
  | records (rs : List TradeRecord)
  | raised
  | fuelOut
deriving DecidableEq

/-- Observable effects inside `fetch_trade_data`: HTTP requests and sleeps. -/
inductive FetchEv where
  | httpGet
  | sleep (secs : Nat)
deriving DecidableEq

/-- The retry state machine of `fetch_trade_data`, lines 87–107 of the source:
429 → sleep `min(60·2^retry_count, 300)` and retry; 404 → `[]`; other non-200 →
sleep 10 and retry while `retry_count < 3`, else `[]`; 200 → the body's `data`
field (default `[]`).  Returns the outcome and the trace of effects. -/
def fetch_trade_data : List HResp → Nat → FetchOutcome × List FetchEv
  | [], _ => (.fuelOut, [])
  | resp :: rest, retry_count =>
    match resp with
    | .exn => (.raised, [.httpGet])
    | .mk status body =>
      if status = 429 then
        let r := fetch_trade_data rest (retry_count + 1)
        (r.1, .httpGet :: .sleep (min (60 * 2 ^ retry_count) 300) :: r.2)
      else if status = 404 then
        (.records [], [.httpGet])
      else if status ≠ 200 then
        if retry_count < 3 then
          let r := fetch_trade_data rest (retry_count + 1)
          (r.1, .httpGet :: .sleep 10 :: r.2)
        else (.records [], [.httpGet])
      else
        match body with
        | .malformed => (.raised, [.httpGet])
        | .obj data => (.records (data.getD []), [.httpGet])

/-! ### Task enumeration and the resume filter (source lines 110–157) -/

/-- Source line 26: `YEAR_START = 1990`. -/
def YEAR_START : Nat := 1990

/-- Source line 27: `YEAR_END = 2024`. -/
def YEAR_END : Nat := 2024

/-- Source line 130: `years = list(range(YEAR_START, YEAR_END + 1))`. -/
def years : List Nat := List.range' YEAR_START (YEAR_END + 1 - YEAR_START)

/-- Source line 133: `flows = [("M", "imports"), ("X", "exports")]`. -/
def flows : List (String × String) := [("M", "imports"), ("X", "exports")]

/-- A reporter dict as consumed by `run` (`code`, `name`, `iso3`). -/
structure Reporter where
  code : Nat
  name : String
  iso3 : String
deriving DecidableEq

/-- One element of `all_tasks`: the tuple
`(r["code"], r["name"], y, f_code, f_name)` of source lines 136–141. -/
structure Task where
  code : Nat
  name : String
  year : Nat
  fcode : String
  fname : String
deriving DecidableEq

/-- The derived checkpoint key, the f-string `f"{code}_{y}_{f_code}"` of source
lines 145 and 183. -/
def taskKey (code year : Nat) (flow : String) : String :=
  toString code ++ "_" ++ toString year ++ "_" ++ flow

/-- The key of a task tuple. -/
def keyT (t : Task) : String := taskKey t.code t.year t.fcode

/-- Modelled from the spec: the flow-less near-duplicate script variants
mentioned in the spec (not present under `src/`) derive the key without the
flow component, i.e. `f"{code}_{year}"`; an absent flow is that variant's key.
The `some` case is the source's `taskKey`. -/
def taskKeyOpt (code year : Nat) : Option String → String
  | some f => taskKey code year f
  | none => toString code ++ "_" ++ toString year

/-- Source lines 136–141: the entity-major, then year, then flow enumeration
of `all_tasks`. -/
def allTasks (reporters : List Reporter) : List Task :=
  reporters.flatMap fun r => years.flatMap fun y => flows.map fun f =>
    ⟨r.code, r.name, y, f.1, f.2⟩

/-- Source lines 142–146: the resume filter keeping tasks whose key is not in
the completed set. -/
def pendingOf (reporters : List Reporter) (completed : Finset String) : List Task :=
  (allTasks reporters).filter fun t => decide (keyT t ∉ completed)

/-! ### The fetch loop of `run` (source lines 159–193)

The loop's interactions with the outside world become an event trace:
`fetch` abstracts one completed `fetch_trade_data` call (whose resolved result
is supplied by an `oracle` function from task coordinates to records),
`saveRaw` is `save_raw_json`, `saveState` is `save_state` (persisting the whole
completed set), and `sleep` is `time.sleep`. -/

/-- Observable events of the `run` loop. -/
inductive Event where
  | fetch (code year : Nat) (flow : String)
  | saveRaw (name : String) (records : List TradeRecord)
  | saveState (completed : Finset String)
  | sleep (secs : Nat)
deriving DecidableEq

/-- The loop's mutable state: `current_reporter`, `reporter_records`, and the
in-memory `completed` set. -/
structure LoopSt where
  current : Option Nat
  buffer : List TradeRecord
  completed : Finset String

/-- The artifact name `f"trade_{current_reporter}"`; Python renders `None` as
the string `"None"`. -/
def flushName (cur : Option Nat) : String :=
  "trade_" ++ (match cur with | some c => toString c | none => "None")

/-- Source lines 164–169: on advancing to a task of a different reporter, flush
a non-empty buffer under the previous reporter's name and reset the buffer. -/
def switchEvents (cur : Option Nat) (code : Nat) (buf : List TradeRecord) :
    List Event × List TradeRecord :=
  match cur with
  | none => ([], buf)
  | some c =>
    if code ≠ c then
      ((if buf = [] then [] else [Event.saveRaw (flushName (some c)) buf]), [])
    else ([], buf)

/-- Source lines 163–188: the body of the `for` loop over `pending`, iterated.
Per task: switch-flush, fetch, extend the buffer when records arrived, add the
key to `completed`, persist the whole set, sleep 10 seconds. -/
def loopTasks (oracle : Nat → Nat → String → List TradeRecord) :
    LoopSt → List Task → LoopSt × List Event
  | st, [] => (st, [])
  | st, t :: ts =>
    let sw := switchEvents st.current t.code st.buffer
    let records := oracle t.code t.year t.fcode
    let buf1 := if records = [] then sw.2 else sw.2 ++ records
    let completed1 := insert (keyT t) st.completed
    let rest := loopTasks oracle ⟨some t.code, buf1, completed1⟩ ts
    (rest.1, sw.1 ++ Event.fetch t.code t.year t.fcode :: Event.saveState completed1 ::
      Event.sleep 10 :: rest.2)

/-- Source lines 190–193: flush any non-empty remaining buffer after the loop. -/
def finalFlush (st : LoopSt) : List Event :=
  if st.buffer = [] then [] else [Event.saveRaw (flushName st.current) st.buffer]

/-- The whole loop from its initial state (`current_reporter = None`,
`reporter_records = []`) plus the final flush. -/
def loopEvents (oracle : Nat → Nat → String → List TradeRecord)
    (S0 : Finset String) (pending : List Task) : List Event :=
  let r := loopTasks oracle ⟨none, [], S0⟩ pending
  r.2 ++ finalFlush r.1

/-- Source lines 126–193 after the reporters artifact is written: load the
completed set, enumerate and filter tasks, return early when nothing is
pending (line 151), otherwise run the loop and the final flush. -/
def runEvents (oracle : Nat → Nat → String → List TradeRecord)
    (reporters : List Reporter) (S0 : Finset String) : List Event :=
  let pending := pendingOf reporters S0
  if pending = [] then [] else loopEvents oracle S0 pending

/-! ### Spec-side observers over traces -/

/-- Horner-style evaluation of a character list as a decimal number (soundness
tool for `Nat.repr`). -/
def evalDigits (a : Nat) (l : List Char) : Nat :=
  l.foldl (fun acc c => 10 * acc + (c.toNat - 48)) a

/-- The HTTP fetches of a trace, in order, with their task coordinates. -/
def fetchesOf (l : List Event) : List (Nat × Nat × String) :=
  l.filterMap fun e => match e with
    | .fetch c y f => some (c, y, f)
    | _ => none

/-- The raw-storage batch writes of a trace, in order. -/
def flushesOf (l : List Event) : List (String × List TradeRecord) :=
  l.filterMap fun e => match e with
    | .saveRaw n rs => some (n, rs)
    | _ => none

/-- The persisted completed-sets of a trace, in order. -/
def stsOf (l : List Event) : List (Finset String) :=
  l.filterMap fun e => match e with
    | .saveState s => some s
    | _ => none

/-- Whether an event is a raw-storage batch write. -/
def isFlush : Event → Bool
  | .saveRaw _ _ => true
  | _ => false

/-- The checkpoint discipline the spec demands of the loop, per pending task:
one fetch, then one persist of the whole grown completed set, then the fixed
10-second inter-request delay. -/
def ckptSpec : Finset String → List Task → List Event
  | _, [] => []
  | s, t :: ts =>
    Event.fetch t.code t.year t.fcode :: Event.saveState (insert (keyT t) s) ::
      Event.sleep 10 :: ckptSpec (insert (keyT t) s) ts

/-- What it would mean for a stored record to carry its provenance: some field
holds the originating entity code and some field holds the period, either as a
JSON number or as its decimal string. -/
def carriesProvenance (rec : TradeRecord) (code year : Nat) : Prop :=
  (∃ k v, (k, v) ∈ rec ∧ (v = JVal.num (code : Int) ∨ v = JVal.str (toString code))) ∧
  (∃ k v, (k, v) ∈ rec ∧ (v = JVal.num (year : Int) ∨ v = JVal.str (toString year)))

/-! ### Concrete scenario data for counterexamples and witnesses -/

/-- A single-reporter list used by concrete scenarios. -/
def demoReporters : List Reporter := [⟨7, "Testland", ""⟩]

/-- An oracle whose every fetch yields one record that is an empty JSON
object — the API is free to return records with no fields the connector
recognises, since it treats them as opaque. -/
def emptyObjOracle : Nat → Nat → String → List TradeRecord :=
  fun _ _ _ => [[]]

/-- A concrete non-empty record. -/
def demoRecord : TradeRecord := [("primaryValue", JVal.num 123)]

/-- An oracle whose every fetch yields `demoRecord`. -/
def demoOracle : Nat → Nat → String → List TradeRecord :=
  fun _ _ _ => [demoRecord]

/-- An oracle whose every fetch yields no records. -/
def emptyOracle : Nat → Nat → String → List TradeRecord :=
  fun _ _ _ => []

/-- An oracle whose every fetch yields ten empty-object records. -/
def tenRecordOracle : Nat → Nat → String → List TradeRecord :=
  fun _ _ _ => List.replicate 10 []

/-- Concrete reporter reference entries: one active country, one group entity. -/
def demoEntries : List Entry :=
  [[("reporterCode", JVal.num 4), ("reporterDesc", JVal.str "Afghanistan")],
   [("reporterCode", JVal.num 97), ("reporterDesc", JVal.str "EU"),
    ("isGroup", JVal.bool true)]]

/-! ## Groundwork theorems: decimal representation of `Nat`

Python's f-string interpolation of an `int` is its decimal representation,
which the Lean side renders with `Nat.repr` (via `toString`).  The claims about
key collisions need two facts proved here from first principles: every
character of `Nat.repr n` is a decimal digit (in particular never an
underscore), and `Nat.repr` is injective.
-/

/-- The function `Nat.toDigitsCore` tacks its accumulator onto the right of
the digits it produces. -/
theorem toDigitsCore_eq_append (fuel n : Nat) (ds : List Char) :
    Nat.toDigitsCore 10 fuel n ds = Nat.toDigitsCore 10 fuel n [] ++ ds := by
  induction fuel generalizing n ds with
  | zero => simp [Nat.toDigitsCore]
  | succ fuel ih =>
    simp only [Nat.toDigitsCore]
    by_cases h : n / 10 = 0
    · simp [h]
    · simp only [h, if_false]
      rw [ih (n / 10) [Nat.digitChar (n % 10)], ih (n / 10) (Nat.digitChar (n % 10) :: ds),
        List.append_assoc]
      rfl

/-- With enough fuel, the fuel does not matter. -/
theorem toDigitsCore_fuel_irrel (n : Nat) :
    ∀ f₁ f₂ : Nat, n < f₁ → n < f₂ →
      Nat.toDigitsCore 10 f₁ n [] = Nat.toDigitsCore 10 f₂ n [] := by
  induction n using Nat.strong_induction_on with
  | _ n ih =>
    intro f₁ f₂ h₁ h₂
    match f₁, f₂ with
    | f₁ + 1, f₂ + 1 =>
      simp only [Nat.toDigitsCore]
      by_cases h : n / 10 = 0
      · simp [h]
      · simp only [h, if_false]
        have hn : 0 < n := by
          rcases Nat.eq_zero_or_pos n with h0 | h0
          · subst h0; simp at h
          · exact h0
        have hdiv : n / 10 < n := Nat.div_lt_self hn (by omega)
        rw [toDigitsCore_eq_append f₁ (n / 10), toDigitsCore_eq_append f₂ (n / 10),
          ih (n / 10) hdiv f₁ f₂ (by omega) (by omega)]

/-- Unfolding rule for `Nat.toDigits 10` on small numbers. -/
theorem toDigits_lt_ten (n : Nat) (h : n < 10) :
    Nat.toDigits 10 n = [Nat.digitChar n] := by
  have h0 : n / 10 = 0 := Nat.div_eq_of_lt h
  simp [Nat.toDigits, Nat.toDigitsCore, h0, Nat.mod_eq_of_lt h]

/-- Unfolding rule for `Nat.toDigits 10` on numbers with several digits. -/
theorem toDigits_ge_ten (n : Nat) (h : 10 ≤ n) :
    Nat.toDigits 10 n = Nat.toDigits 10 (n / 10) ++ [Nat.digitChar (n % 10)] := by
  have h0 : n / 10 ≠ 0 := by
    intro hc
    have := (Nat.div_eq_zero_iff (by omega)).mp hc
    omega
  have hn : 0 < n := by omega
  have hdiv : n / 10 < n := Nat.div_lt_self hn (by omega)
  simp only [Nat.toDigits, Nat.toDigitsCore, h0, if_false]
  rw [toDigitsCore_eq_append n (n / 10)]
  congr 1
  exact toDigitsCore_fuel_irrel (n / 10) n (n / 10 + 1) (by omega) (by omega)

/-- The digit characters of decimal digits are decimal-digit characters. -/
theorem digitChar_isDigit (n : Nat) (h : n < 10) : (Nat.digitChar n).isDigit = true := by
  interval_cases n <;> decide

/-- Every character of `Nat.toDigits 10 n` is a decimal digit. -/
theorem toDigits_isDigit (n : Nat) : ∀ c ∈ Nat.toDigits 10 n, c.isDigit = true := by
  induction n using Nat.strong_induction_on with
  | _ n ih =>
    by_cases h : n < 10
    · rw [toDigits_lt_ten n h]
      intro c hc
      rcases List.mem_singleton.mp hc with rfl
      exact digitChar_isDigit n h
    · push_neg at h
      rw [toDigits_ge_ten n h]
      intro c hc
      rcases List.mem_append.mp hc with hc | hc
      · exact ih (n / 10) (Nat.div_lt_self (by omega) (by omega)) c hc
      · rcases List.mem_singleton.mp hc with rfl
        exact digitChar_isDigit (n % 10) (Nat.mod_lt n (by omega))

/-- The underscore never occurs among the decimal digits of a number. -/
theorem underscore_not_mem_toDigits (n : Nat) : '_' ∉ Nat.toDigits 10 n := by
  intro h
  have := toDigits_isDigit n _ h
  simp [Char.isDigit] at this

/-- Numeric value of a digit character produced by `Nat.digitChar`. -/
theorem digitChar_val (n : Nat) (h : n < 10) : (Nat.digitChar n).toNat - 48 = n := by
  interval_cases n <;> decide

/-- Evaluating the digit list of `Nat.toDigits 10` recovers the number. -/
theorem evalDigits_toDigits (n : Nat) :
    ∀ a : Nat, evalDigits a (Nat.toDigits 10 n) =
      a * 10 ^ (Nat.toDigits 10 n).length + n := by
  induction n using Nat.strong_induction_on with
  | _ n ih =>
    intro a
    by_cases h : n < 10
    · rw [toDigits_lt_ten n h]
      simp [evalDigits, digitChar_val n h]
      ring
    · push_neg at h
      rw [toDigits_ge_ten n h]
      have hdiv : n / 10 < n := Nat.div_lt_self (by omega) (by omega)
      simp only [evalDigits, List.foldl_append, List.foldl_cons, List.foldl_nil,
        List.length_append, List.length_singleton]
      have hrec := ih (n / 10) hdiv a
      simp only [evalDigits] at hrec
      rw [hrec, digitChar_val (n % 10) (Nat.mod_lt n (by omega))]
      have : 10 * (a * 10 ^ (Nat.toDigits 10 (n / 10)).length + n / 10) + n % 10 =
          a * (10 ^ (Nat.toDigits 10 (n / 10)).length * 10) + (10 * (n / 10) + n % 10) := by
        ring
      rw [this, Nat.div_add_mod, ← pow_succ]

/-- The map `Nat.toDigits 10` is injective. -/
theorem toDigits_injective {m n : Nat} (h : Nat.toDigits 10 m = Nat.toDigits 10 n) :
    m = n := by
  have hm := evalDigits_toDigits m 0
  have hn := evalDigits_toDigits n 0
  rw [h] at hm
  simpa [hm] using hn

/-- The characters of `Nat.repr`. -/
theorem repr_data (n : Nat) : (Nat.repr n).data = Nat.toDigits 10 n := rfl

/-- The map `Nat.repr` (= Python `str` on a non-negative `int`) is injective. -/
theorem repr_injective {m n : Nat} (h : Nat.repr m = Nat.repr n) : m = n := by
  apply toDigits_injective
  rw [← repr_data, ← repr_data, h]

/-- The underscore never occurs in `Nat.repr n`. -/
theorem underscore_not_mem_repr (n : Nat) : '_' ∉ (Nat.repr n).data := by
  rw [repr_data]; exact underscore_not_mem_toDigits n

/-- Splitting at the first underscore: underscore-free blocks followed by an
underscore determine the decomposition uniquely. -/
theorem underscore_split {A B A' B' : List Char} (hA : '_' ∉ A) (hA' : '_' ∉ A')
    (h : A ++ '_' :: B = A' ++ '_' :: B') : A = A' ∧ B = B' := by
  induction A generalizing A' with
  | nil =>
    cases A' with
    | nil => simpa using h
    | cons c t =>
      simp only [List.nil_append, List.cons_append, List.cons.injEq] at h
      exact absurd (h.1 ▸ List.mem_cons_self c t) hA'
  | cons c t ih =>
    cases A' with
    | nil =>
      simp only [List.nil_append, List.cons_append, List.cons.injEq] at h
      exact absurd (h.1.symm ▸ List.mem_cons_self c t) hA
    | cons c' t' =>
      simp only [List.cons_append, List.cons.injEq] at h
      have ht : '_' ∉ t := fun hm => hA (List.mem_cons_of_mem c hm)
      have ht' : '_' ∉ t' := fun hm => hA' (List.mem_cons_of_mem c' hm)
      obtain ⟨rfl, h2⟩ := h
      obtain ⟨rfl, rfl⟩ := ih ht ht' h2
      exact ⟨rfl, rfl⟩

/-! ## Key injectivity -/

/-- On `Nat`, `toString` is `Nat.repr`. -/
theorem toString_nat (n : Nat) : toString n = Nat.repr n := rfl

/-- The character list underlying a derived task key. -/
theorem taskKey_data (c y : Nat) (f : String) :
    (taskKey c y f).data =
      Nat.toDigits 10 c ++ '_' :: (Nat.toDigits 10 y ++ '_' :: f.data) := by
  simp [taskKey, toString_nat, String.data_append, repr_data]

/-- The character list underlying a flow-less task key. -/
theorem taskKeyOpt_none_data (c y : Nat) :
    (taskKeyOpt c y none).data = Nat.toDigits 10 c ++ '_' :: Nat.toDigits 10 y := by
  simp [taskKeyOpt, toString_nat, String.data_append, repr_data]

/-- The derived key `"{code}_{year}_{flow}"` is a collision-free encoding of
its three components, for arbitrary flow strings. -/
theorem taskKey_injective {c₁ y₁ c₂ y₂ : Nat} {f₁ f₂ : String}
    (h : taskKey c₁ y₁ f₁ = taskKey c₂ y₂ f₂) : c₁ = c₂ ∧ y₁ = y₂ ∧ f₁ = f₂ := by
  have hd := congrArg String.data h
  rw [taskKey_data, taskKey_data] at hd
  obtain ⟨hc, hrest⟩ :=
    underscore_split (underscore_not_mem_toDigits c₁) (underscore_not_mem_toDigits c₂) hd
  obtain ⟨hy, hf⟩ :=
    underscore_split (underscore_not_mem_toDigits y₁) (underscore_not_mem_toDigits y₂) hrest
  exact ⟨toDigits_injective hc, toDigits_injective hy, String.ext hf⟩

/-- The optional-flow key (source variant plus the spec-modelled flow-less
variant) is still collision free: the flow-less key has exactly one
underscore while a flow-aware key has at least two. -/
theorem taskKeyOpt_injective {c₁ y₁ c₂ y₂ : Nat} {f₁ f₂ : Option String}
    (h : taskKeyOpt c₁ y₁ f₁ = taskKeyOpt c₂ y₂ f₂) :
    c₁ = c₂ ∧ y₁ = y₂ ∧ f₁ = f₂ := by
  have hd := congrArg String.data h
  match f₁, f₂ with
  | some f₁, some f₂ =>
    obtain ⟨hc, hy, hf⟩ := taskKey_injective h
    exact ⟨hc, hy, by rw [hf]⟩
  | some f₁, none =>
    rw [taskKeyOpt, taskKey_data, taskKeyOpt_none_data] at hd
    obtain ⟨-, hrest⟩ :=
      underscore_split (underscore_not_mem_toDigits c₁) (underscore_not_mem_toDigits c₂) hd
    exact absurd (hrest ▸ List.mem_append_right _ (List.mem_cons_self _ _))
      (underscore_not_mem_toDigits y₂)
  | none, some f₂ =>
    rw [taskKeyOpt, taskKey_data, taskKeyOpt_none_data] at hd
    obtain ⟨-, hrest⟩ :=
      underscore_split (underscore_not_mem_toDigits c₁) (underscore_not_mem_toDigits c₂) hd
    exact absurd (hrest.symm ▸ List.mem_append_right _ (List.mem_cons_self _ _))
      (underscore_not_mem_toDigits y₁)
  | none, none =>
    rw [taskKeyOpt_none_data, taskKeyOpt_none_data] at hd
    obtain ⟨hc, hy⟩ :=
      underscore_split (underscore_not_mem_toDigits c₁) (underscore_not_mem_toDigits c₂) hd
    exact ⟨toDigits_injective hc, toDigits_injective hy, rfl⟩

/-- C8 (task-key injectivity): the derived key string `"{code}_{year}_{flow}"`
is a collision-free encoding of the triple (entity code, period, flow) — for
every two distinct triples with entity codes in 1–900, years in 1962–2024, and
flow among M, X or absent, the derived key strings differ.  (The flow-absent
key shape is modelled from the spec's flow-less script variants; the proof in
fact needs none of the range bounds.) -/
theorem C8_task_key_injective (c₁ y₁ c₂ y₂ : Nat) (f₁ f₂ : Option String)
    (hc₁ : 1 ≤ c₁ ∧ c₁ ≤ 900) (hc₂ : 1 ≤ c₂ ∧ c₂ ≤ 900)
    (hy₁ : 1962 ≤ y₁ ∧ y₁ ≤ 2024) (hy₂ : 1962 ≤ y₂ ∧ y₂ ≤ 2024)
    (hf₁ : f₁ ∈ [some "M", some "X", (none : Option String)])
    (hf₂ : f₂ ∈ [some "M", some "X", (none : Option String)])
    (hne : (c₁, y₁, f₁) ≠ (c₂, y₂, f₂)) :
    taskKeyOpt c₁ y₁ f₁ ≠ taskKeyOpt c₂ y₂ f₂ := by
  intro h
  obtain ⟨hc, hy, hf⟩ := taskKeyOpt_injective h
  exact hne (by rw [hc, hy, hf])

/-- Witness for C8 at a concrete pair of distinct triples. -/
theorem C8_task_key_injective_witness :
    taskKeyOpt 1 1962 (some "M") ≠ taskKeyOpt 1 1962 (some "X") :=
  C8_task_key_injective 1 1962 1 1962 (some "M") (some "X")
    (by decide) (by decide) (by decide) (by decide)
    (by decide) (by decide) (by decide)

/-! ## Claim C9: the reporter filter -/

/-- C9 (implicit): every reporter kept by `fetch_reporters` comes from a source
entry whose `entryExpiredDate` field is absent or falsy and whose `isGroup`
field is absent or falsy, with the kept dict's fields projected from that
entry; so the task enumeration never contains an expired or group entity. -/
theorem C9_reporters_filter (results : List Entry) (reps : List ReporterEntry)
    (h : fetch_reporters results = .ok reps) :
    ∀ rep ∈ reps, ∃ r ∈ results,
      truthy (jgetD r "entryExpiredDate") = false ∧
      truthy (jgetD r "isGroup") = false ∧
      jget r "reporterCode" = some rep.code ∧
      jget r "reporterDesc" = some rep.name ∧
      rep.iso3 = (jget r "reporterCodeIsoAlpha3").getD (JVal.str "") := by
  induction results generalizing reps with
  | nil =>
    simp only [fetch_reporters] at h
    cases h
    intro rep hrep
    simp at hrep
  | cons r rest ih =>
    intro rep hrep
    simp only [fetch_reporters] at h
    by_cases hexp : truthy (jgetD r "entryExpiredDate")
    · rw [if_pos hexp] at h
      obtain ⟨r', hr', hprops⟩ := ih reps h rep hrep
      exact ⟨r', List.mem_cons_of_mem r hr', hprops⟩
    · rw [if_neg hexp] at h
      by_cases hgrp : truthy (jgetD r "isGroup")
      · rw [if_pos hgrp] at h
        obtain ⟨r', hr', hprops⟩ := ih reps h rep hrep
        exact ⟨r', List.mem_cons_of_mem r hr', hprops⟩
      · rw [if_neg hgrp] at h
        cases hc : jget r "reporterCode" with
        | none => rw [hc] at h; cases h
        | some c =>
          cases hn : jget r "reporterDesc" with
          | none => rw [hc, hn] at h; cases h
          | some nm =>
            rw [hc, hn] at h
            cases hrest : fetch_reporters rest with
            | error e => rw [hrest] at h; cases h
            | ok l =>
              rw [hrest] at h
              simp only [Except.map] at h
              cases h
              rcases List.mem_cons.mp hrep with rfl | hmem
              · refine ⟨r, List.mem_cons_self r rest, ?_⟩
                simp [hexp, hgrp, hc, hn]
              · obtain ⟨r', hr', hprops⟩ := ih l hrest rep hmem
                exact ⟨r', List.mem_cons_of_mem r hr', hprops⟩

/-- Witness for C9 on concrete reference data: the group entity is dropped and
the kept reporter's provenance entry exists. -/
theorem C9_reporters_filter_witness :
    ∃ r ∈ demoEntries,
      truthy (jgetD r "entryExpiredDate") = false ∧
      truthy (jgetD r "isGroup") = false ∧
      jget r "reporterCode" = some (ReporterEntry.code ⟨JVal.num 4, JVal.str "Afghanistan", JVal.str ""⟩) ∧
      jget r "reporterDesc" = some (ReporterEntry.name ⟨JVal.num 4, JVal.str "Afghanistan", JVal.str ""⟩) ∧
      (ReporterEntry.iso3 ⟨JVal.num 4, JVal.str "Afghanistan", JVal.str ""⟩) =
        (jget r "reporterCodeIsoAlpha3").getD (JVal.str "") :=
  C9_reporters_filter demoEntries [⟨JVal.num 4, JVal.str "Afghanistan", JVal.str ""⟩]
    rfl ⟨JVal.num 4, JVal.str "Afghanistan", JVal.str ""⟩ (by decide)

/-! ## Claims C2, C5, C6: the retry state machine -/

/-- C2 is false on the code: `fetch_trade_data` has no exception handler at
all.  A transport-level exception raised by the HTTP `get`, and a malformed
JSON body on a 200 response, both escape to the caller (outcome `raised`,
which is not `records rs` for any list `rs`) instead of resolving to an empty
list. -/
theorem C2_counterexample :
    (fetch_trade_data [HResp.exn] 0).1 = .raised ∧
    (fetch_trade_data [HResp.mk 200 JBody.malformed] 0).1 = .raised ∧
    ∀ rs : List TradeRecord, FetchOutcome.raised ≠ .records rs := by
  refine ⟨rfl, rfl, ?_⟩
  intro rs h
  cases h

/-- C2 amended: for every response classification other than a transport-level
exception and a malformed JSON body on a 200 (statuses 200/404/429/other, in
any order), `fetch_trade_data` resolves to a list of records (possibly empty)
and never raises; a transport-level exception or malformed 200 body, by
contrast, propagates to the caller uncaught, with no logging and no retry. -/
theorem C2_amended_no_raise (resps : List HResp) (retry_count : Nat)
    (hok : ∀ resp ∈ resps, resp ≠ HResp.exn ∧ resp ≠ HResp.mk 200 JBody.malformed) :
    (fetch_trade_data resps retry_count).1 ≠ .raised := by
  induction resps generalizing retry_count with
  | nil => simp [fetch_trade_data]
  | cons resp rest ih =>
    have hhead := hok resp (List.mem_cons_self resp rest)
    have htail : ∀ r ∈ rest, r ≠ HResp.exn ∧ r ≠ HResp.mk 200 JBody.malformed :=
      fun r hr => hok r (List.mem_cons_of_mem resp hr)
    match resp with
    | .exn => exact absurd rfl hhead.1
    | .mk status body =>
      simp only [fetch_trade_data]
      by_cases h429 : status = 429
      · simp only [h429, if_true]
        exact ih (retry_count + 1) htail
      · rw [if_neg h429]
        by_cases h404 : status = 404
        · simp [h404]
        · rw [if_neg h404]
          by_cases h200 : status ≠ 200
          · rw [if_pos h200]
            by_cases hrc : retry_count < 3
            · rw [if_pos hrc]
              exact ih (retry_count + 1) htail
            · rw [if_neg hrc]
              simp
          · rw [if_neg h200]
            push_neg at h200
            match body with
            | .malformed => exact absurd (by rw [h200]) hhead.2
            | .obj data => simp

/-- Witness for the amended C2: a 500 then a 404 resolves without raising. -/
theorem C2_amended_no_raise_witness :
    (fetch_trade_data [HResp.mk 500 (JBody.obj none), HResp.mk 404 (JBody.obj none)] 0).1 ≠
      .raised :=
  C2_amended_no_raise [HResp.mk 500 (JBody.obj none), HResp.mk 404 (JBody.obj none)] 0
    (by decide)

/-- Helper for C5: a run of `n` consecutive 429 responses produces `n` waits of
`min(60·2^(r+i), 300)` seconds (one per retry, each attempt preceded by its
HTTP request) and continues with the retry counter advanced by `n`. -/
theorem fetch_429_run (body : JBody) (n : Nat) :
    ∀ (rest : List HResp) (r : Nat),
      fetch_trade_data (List.replicate n (HResp.mk 429 body) ++ rest) r =
        ((fetch_trade_data rest (r + n)).1,
          ((List.range n).flatMap fun i =>
            [FetchEv.httpGet, FetchEv.sleep (min (60 * 2 ^ (r + i)) 300)]) ++
            (fetch_trade_data rest (r + n)).2) := by
  induction n with
  | zero => intro rest r; simp
  | succ n ih =>
    intro rest r
    rw [List.replicate_succ, List.cons_append]
    simp only [fetch_trade_data, if_true, ih rest (r + 1)]
    rw [List.range_succ_eq_map]
    simp only [List.flatMap_cons, List.flatMap_map]
    have harith : ∀ i : Nat, r + 1 + i = r + (i + 1) := by omega
    have : (fun i => [FetchEv.httpGet, FetchEv.sleep (min (60 * 2 ^ (r + 1 + i)) 300)]) =
        (fun i => [FetchEv.httpGet, FetchEv.sleep (min (60 * 2 ^ (r + (i + 1))) 300)]) := by
      funext i; rw [harith i]
    rw [this]
    simp [Nat.add_comm, Nat.add_assoc, Nat.add_left_comm]

/-- C5 (429 backoff arithmetic): on status 429 the function waits
`min(60·2^retry_count, 300)` seconds and retries the same task with the
counter incremented, with no cap on the number of 429 retries: after any
number `n` of consecutive 429s it still retries and succeeds on a later 200,
and the wait sequence before successive attempts is
`min(60·2^i, 300)` for `i = 0, 1, 2, ...`, i.e. 60, 120, 240, 300, 300, ... -/
theorem C5_backoff_429 (body : JBody) (n : Nat) (data : List TradeRecord) :
    fetch_trade_data
        (List.replicate n (HResp.mk 429 body) ++ [HResp.mk 200 (JBody.obj (some data))]) 0 =
      (.records data,
        ((List.range n).flatMap fun i =>
          [FetchEv.httpGet, FetchEv.sleep (min (60 * 2 ^ i) 300)]) ++ [FetchEv.httpGet]) ∧
    ((List.range 5).map fun i => min (60 * 2 ^ i) 300) = [60, 120, 240, 300, 300] := by
  constructor
  · rw [fetch_429_run body n [HResp.mk 200 (JBody.obj (some data))] 0]
    simp [fetch_trade_data]
  · decide

/-- C6 (bounded retry for generic HTTP errors): for a status other than 200,
404 and 429 the function retries only while `retry_count < 3` (waiting 10
seconds each time) and otherwise returns an empty list; so against an endpoint
that always answers 500, starting from `retry_count = 0`, exactly 4 total
attempts (4 HTTP requests, with three 10-second waits between them) are made
and the result is the empty list, whatever responses would follow. -/
theorem C6_bounded_retry :
    (∀ (status : Nat) (body : JBody) (rest : List HResp) (rc : Nat),
      status ≠ 200 → status ≠ 404 → status ≠ 429 → 3 ≤ rc →
      fetch_trade_data (HResp.mk status body :: rest) rc = (.records [], [FetchEv.httpGet])) ∧
    ∀ (body : JBody) (rest : List HResp),
      fetch_trade_data (List.replicate 4 (HResp.mk 500 body) ++ rest) 0 =
        (.records [], [FetchEv.httpGet, FetchEv.sleep 10, FetchEv.httpGet, FetchEv.sleep 10,
          FetchEv.httpGet, FetchEv.sleep 10, FetchEv.httpGet]) := by
  constructor
  · intro status body rest rc h200 h404 h429 hrc
    simp only [fetch_trade_data]
    rw [if_neg h429, if_neg h404, if_pos h200, if_neg (by omega : ¬ rc < 3)]
  · intro body rest
    simp [List.replicate_succ, fetch_trade_data]

/-- Witness for C6: the generic-error give-up branch at a concrete input. -/
theorem C6_bounded_retry_witness :
    fetch_trade_data [HResp.mk 500 (JBody.obj none)] 3 = (.records [], [FetchEv.httpGet]) :=
  C6_bounded_retry.1 500 (JBody.obj none) [] 3 (by decide) (by decide) (by decide) (by decide)

/-! ## Claim C3: resumability and idempotence of the fetch loop -/

/-- Membership in the task enumeration. -/
theorem mem_allTasks {R : List Reporter} {t : Task} :
    t ∈ allTasks R ↔ ∃ r ∈ R, ∃ y ∈ years, ∃ f ∈ flows,
      t = ⟨r.code, r.name, y, f.1, f.2⟩ := by
  simp only [allTasks, List.mem_flatMap, List.mem_map]
  constructor
  · rintro ⟨r, hr, y, hy, f, hf, rfl⟩
    exact ⟨r, hr, y, hy, f, hf, rfl⟩
  · rintro ⟨r, hr, y, hy, f, hf, rfl⟩
    exact ⟨r, hr, y, hy, f, hf, rfl⟩

/-- With reporter codes pairwise distinct, two enumerated tasks with the same
derived key are the same task: the key pins code, year and flow code, the code
pins the reporter (hence the name), and the flow code pins the flow name. -/
theorem task_eq_of_key_eq {R : List Reporter} {t s : Task}
    (hnd : (R.map Reporter.code).Nodup)
    (ht : t ∈ allTasks R) (hs : s ∈ allTasks R) (hkey : keyT t = keyT s) : t = s := by
  obtain ⟨r, hr, y, hy, f, hf, rfl⟩ := mem_allTasks.mp ht
  obtain ⟨r', hr', y', hy', f', hf', rfl⟩ := mem_allTasks.mp hs
  obtain ⟨hc, hyy, hff⟩ := taskKey_injective hkey
  have hrr : r = r' := List.inj_on_of_nodup_map hnd hr hr' hc
  subst hrr
  subst hyy
  have hfeq : f = f' := by
    have h1 : f = ("M", "imports") ∨ f = ("X", "exports") := by
      simpa [flows] using hf
    have h2 : f' = ("M", "imports") ∨ f' = ("X", "exports") := by
      simpa [flows] using hf'
    rcases h1 with rfl | rfl <;> rcases h2 with rfl | rfl <;> simp_all
  rw [hfeq]

/-- The resume filter with a completed set consisting exactly of the keys of a
subset `S` of the enumeration keeps exactly the tasks outside `S`, in order. -/
theorem pendingOf_resume {R : List Reporter} {S : List Task}
    (hnd : (R.map Reporter.code).Nodup) (hS : ∀ s ∈ S, s ∈ allTasks R) :
    pendingOf R ((S.map keyT).toFinset) =
      (allTasks R).filter (fun t => decide (t ∉ S)) := by
  unfold pendingOf
  apply List.filter_congr
  intro t ht
  simp only [decide_eq_decide, List.mem_toFinset, List.mem_map]
  constructor
  · intro hnk hmem
    exact hnk ⟨t, hmem, rfl⟩
  · intro hnmem hk
    obtain ⟨s, hsS, hkey⟩ := hk
    exact hnmem (task_eq_of_key_eq hnd (hS s hsS) ht hkey ▸ hsS)

/-- Switch events are flushes only, so they contribute no fetches, no state
saves, and exactly one batch write when they flush. -/
theorem switch_fst_cases (cur : Option Nat) (code : Nat) (buf : List TradeRecord) :
    (switchEvents cur code buf).1 = [] ∨
      ((switchEvents cur code buf).1 = [Event.saveRaw (flushName cur) buf] ∧ buf ≠ []) := by
  cases cur with
  | none => exact Or.inl rfl
  | some c =>
    by_cases h : code ≠ c
    · by_cases hb : buf = []
      · exact Or.inl (by simp [switchEvents, h, hb])
      · exact Or.inr ⟨by simp [switchEvents, h, hb], hb⟩
    · exact Or.inl (by simp [switchEvents, h])

/-- Trace observers distribute over list append (they are filter-maps). -/
theorem fetchesOf_append (a b : List Event) :
    fetchesOf (a ++ b) = fetchesOf a ++ fetchesOf b := List.filterMap_append a b _

/-- A fetch event contributes its coordinates. -/
theorem fetchesOf_cons_fetch (c y : Nat) (f : String) (l : List Event) :
    fetchesOf (Event.fetch c y f :: l) = (c, y, f) :: fetchesOf l := rfl

/-- A batch write contributes no fetch. -/
theorem fetchesOf_cons_saveRaw (n : String) (rs : List TradeRecord) (l : List Event) :
    fetchesOf (Event.saveRaw n rs :: l) = fetchesOf l := rfl

/-- A state save contributes no fetch. -/
theorem fetchesOf_cons_saveState (s : Finset String) (l : List Event) :
    fetchesOf (Event.saveState s :: l) = fetchesOf l := rfl

/-- A sleep contributes no fetch. -/
theorem fetchesOf_cons_sleep (k : Nat) (l : List Event) :
    fetchesOf (Event.sleep k :: l) = fetchesOf l := rfl

/-- The state saves of a trace, over append. -/
theorem stsOf_append (a b : List Event) :
    stsOf (a ++ b) = stsOf a ++ stsOf b := List.filterMap_append a b _

/-- A state save contributes its set. -/
theorem stsOf_cons_saveState (s : Finset String) (l : List Event) :
    stsOf (Event.saveState s :: l) = s :: stsOf l := rfl

/-- A fetch contributes no state save. -/
theorem stsOf_cons_fetch (c y : Nat) (f : String) (l : List Event) :
    stsOf (Event.fetch c y f :: l) = stsOf l := rfl

/-- A batch write contributes no state save. -/
theorem stsOf_cons_saveRaw (n : String) (rs : List TradeRecord) (l : List Event) :
    stsOf (Event.saveRaw n rs :: l) = stsOf l := rfl

/-- A sleep contributes no state save. -/
theorem stsOf_cons_sleep (k : Nat) (l : List Event) :
    stsOf (Event.sleep k :: l) = stsOf l := rfl

/-- The batch writes of a trace, over append. -/
theorem flushesOf_append (a b : List Event) :
    flushesOf (a ++ b) = flushesOf a ++ flushesOf b := List.filterMap_append a b _

/-- A batch write contributes its payload. -/
theorem flushesOf_cons_saveRaw (n : String) (rs : List TradeRecord) (l : List Event) :
    flushesOf (Event.saveRaw n rs :: l) = (n, rs) :: flushesOf l := rfl

/-- A fetch contributes no batch write. -/
theorem flushesOf_cons_fetch (c y : Nat) (f : String) (l : List Event) :
    flushesOf (Event.fetch c y f :: l) = flushesOf l := rfl

/-- A state save contributes no batch write. -/
theorem flushesOf_cons_saveState (s : Finset String) (l : List Event) :
    flushesOf (Event.saveState s :: l) = flushesOf l := rfl

/-- A sleep contributes no batch write. -/
theorem flushesOf_cons_sleep (k : Nat) (l : List Event) :
    flushesOf (Event.sleep k :: l) = flushesOf l := rfl

/-- The fetch events of the loop are exactly the pending tasks, in order. -/
theorem loopTasks_fetches (oracle : Nat → Nat → String → List TradeRecord)
    (ts : List Task) : ∀ st : LoopSt,
    fetchesOf (loopTasks oracle st ts).2 = ts.map fun t => (t.code, t.year, t.fcode) := by
  induction ts with
  | nil => intro st; rfl
  | cons t ts ih =>
    intro st
    simp only [loopTasks, fetchesOf_append, fetchesOf_cons_fetch, fetchesOf_cons_saveState,
      fetchesOf_cons_sleep, List.map_cons]
    rcases switch_fst_cases st.current t.code st.buffer with hsw | ⟨hsw, -⟩ <;>
      rw [hsw, ih] <;> rfl

/-- The final flush contributes no fetch events. -/
theorem fetchesOf_finalFlush (st : LoopSt) : fetchesOf (finalFlush st) = [] := by
  by_cases h : st.buffer = [] <;> simp [finalFlush, h, fetchesOf]

/-- C3 (resumability and idempotence): if the loaded completed set equals
exactly the derived keys of a subset `S` of the enumerated tasks (reporter
codes being distinct), the loop fetches exactly the tasks of
(all tasks − S), in the original entity-major, then period, then flow order;
and when `S` is the full task set the loop performs zero HTTP fetch calls. -/
theorem C3_resumability (oracle : Nat → Nat → String → List TradeRecord)
    (R : List Reporter) (S : List Task)
    (hnd : (R.map Reporter.code).Nodup) (hS : ∀ s ∈ S, s ∈ allTasks R) :
    fetchesOf (runEvents oracle R ((S.map keyT).toFinset)) =
      ((allTasks R).filter (fun t => decide (t ∉ S))).map
        (fun t => (t.code, t.year, t.fcode)) ∧
    ((∀ t ∈ allTasks R, t ∈ S) →
      runEvents oracle R ((S.map keyT).toFinset) = []) := by
  have hpend := pendingOf_resume hnd hS
  have hrun : runEvents oracle R ((S.map keyT).toFinset) =
      if (allTasks R).filter (fun t => decide (t ∉ S)) = [] then []
      else loopEvents oracle ((S.map keyT).toFinset)
        ((allTasks R).filter (fun t => decide (t ∉ S))) := by
    show (if pendingOf R ((S.map keyT).toFinset) = [] then []
      else loopEvents oracle ((S.map keyT).toFinset)
        (pendingOf R ((S.map keyT).toFinset))) = _
    rw [hpend]
  constructor
  · rw [hrun]
    by_cases hnil : (allTasks R).filter (fun t => decide (t ∉ S)) = []
    · rw [if_pos hnil, hnil]
      rfl
    · rw [if_neg hnil]
      show fetchesOf ((loopTasks oracle ⟨none, [], (S.map keyT).toFinset⟩
          ((allTasks R).filter (fun t => decide (t ∉ S)))).2 ++
          finalFlush (loopTasks oracle ⟨none, [], (S.map keyT).toFinset⟩
          ((allTasks R).filter (fun t => decide (t ∉ S)))).1) = _
      rw [fetchesOf_append, loopTasks_fetches, fetchesOf_finalFlush, List.append_nil]
  · intro hfull
    rw [hrun]
    have hnil : (allTasks R).filter (fun t => decide (t ∉ S)) = [] := by
      apply List.filter_eq_nil_iff.mpr
      intro t ht
      simpa using hfull t ht
    rw [if_pos hnil]

/-- Witness for C3: with every enumerated task already completed, the run
produces no events at all (in particular zero HTTP fetches). -/
theorem C3_resumability_witness :
    runEvents emptyOracle demoReporters
      (((allTasks demoReporters).map keyT).toFinset) = [] :=
  (C3_resumability emptyOracle demoReporters (allTasks demoReporters)
    (by decide) (fun s hs => hs)).2 (fun t ht => ht)

/-! ## Claim C4: checkpoint atomicity per task -/

/-- Filtering the checkpoint view keeps a fetch event. -/
theorem filterCk_cons_fetch (c y : Nat) (f : String) (l : List Event) :
    (Event.fetch c y f :: l).filter (fun e => !(isFlush e)) =
      Event.fetch c y f :: l.filter (fun e => !(isFlush e)) := rfl

/-- Filtering the checkpoint view keeps a state save. -/
theorem filterCk_cons_saveState (s : Finset String) (l : List Event) :
    (Event.saveState s :: l).filter (fun e => !(isFlush e)) =
      Event.saveState s :: l.filter (fun e => !(isFlush e)) := rfl

/-- Filtering the checkpoint view keeps a sleep. -/
theorem filterCk_cons_sleep (k : Nat) (l : List Event) :
    (Event.sleep k :: l).filter (fun e => !(isFlush e)) =
      Event.sleep k :: l.filter (fun e => !(isFlush e)) := rfl

/-- Filtering the checkpoint view drops a batch write. -/
theorem filterCk_cons_saveRaw (n : String) (rs : List TradeRecord) (l : List Event) :
    (Event.saveRaw n rs :: l).filter (fun e => !(isFlush e)) =
      l.filter (fun e => !(isFlush e)) := rfl

/-- The final flush contributes nothing to the checkpoint view. -/
theorem filter_finalFlush (st : LoopSt) :
    (finalFlush st).filter (fun e => !(isFlush e)) = [] := by
  by_cases h : st.buffer = [] <;> simp [finalFlush, h, isFlush]

/-- Stripping batch writes from the loop trace leaves exactly the checkpoint
discipline `ckptSpec`: for each pending task, one fetch, then one persist of
the whole grown completed set, then the fixed 10-second delay, and nothing
else in between. -/
theorem loopTasks_filter_ckpt (oracle : Nat → Nat → String → List TradeRecord)
    (ts : List Task) : ∀ st : LoopSt,
    ((loopTasks oracle st ts).2 ++ finalFlush (loopTasks oracle st ts).1).filter
      (fun e => !(isFlush e)) = ckptSpec st.completed ts := by
  induction ts with
  | nil =>
    intro st
    simp only [loopTasks, List.nil_append]
    exact filter_finalFlush st
  | cons t ts ih =>
    intro st
    simp only [loopTasks, ckptSpec]
    rcases switch_fst_cases st.current t.code st.buffer with hsw | ⟨hsw, -⟩ <;>
      rw [hsw] <;>
      simp only [List.nil_append, List.cons_append, List.append_assoc, filterCk_cons_saveRaw,
        filterCk_cons_fetch, filterCk_cons_saveState, filterCk_cons_sleep] <;>
      rw [ih]

/-- The persisted-set view ignores the events the checkpoint filter drops. -/
theorem stsOf_filter_ckpt (l : List Event) :
    stsOf (l.filter (fun e => !(isFlush e))) = stsOf l := by
  induction l with
  | nil => rfl
  | cons e l ih =>
    cases e <;>
      simp only [filterCk_cons_fetch, filterCk_cons_saveRaw, filterCk_cons_saveState,
        filterCk_cons_sleep, stsOf_cons_fetch, stsOf_cons_saveRaw, stsOf_cons_saveState,
        stsOf_cons_sleep, ih]

/-- Every set the checkpoint discipline persists extends the starting set. -/
theorem ckptSpec_sts_mono (ts : List Task) :
    ∀ (S : Finset String), ∀ X ∈ stsOf (ckptSpec S ts), S ⊆ X := by
  induction ts with
  | nil =>
    intro S X hX
    simp [ckptSpec, stsOf] at hX
  | cons t ts ih =>
    intro S X hX
    simp only [ckptSpec, stsOf_cons_fetch, stsOf_cons_saveState, stsOf_cons_sleep] at hX
    rcases List.mem_cons.mp hX with rfl | hX
    · exact Finset.subset_insert _ S
    · exact (Finset.subset_insert _ S).trans (ih _ X hX)

/-- The persisted sets only grow along the loop. -/
theorem ckptSpec_sts_pairwise (ts : List Task) :
    ∀ S : Finset String, List.Pairwise (· ⊆ ·) (stsOf (ckptSpec S ts)) := by
  induction ts with
  | nil => intro S; simp [ckptSpec, stsOf]
  | cons t ts ih =>
    intro S
    simp only [ckptSpec, stsOf_cons_fetch, stsOf_cons_saveState, stsOf_cons_sleep]
    exact List.Pairwise.cons (fun X hX => ckptSpec_sts_mono ts _ X hX) (ih _)

/-- The i-th persisted set contains the i-th task's key. -/
theorem ckptSpec_sts_get (ts : List Task) :
    ∀ (S : Finset String) (i : Nat) (h : i < ts.length)
      (h2 : i < (stsOf (ckptSpec S ts)).length),
      keyT (ts.get ⟨i, h⟩) ∈ (stsOf (ckptSpec S ts)).get ⟨i, h2⟩ := by
  induction ts with
  | nil =>
    intro S i h h2
    exact absurd h (by simp)
  | cons t ts ih =>
    intro S i h h2
    simp only [ckptSpec, stsOf_cons_fetch, stsOf_cons_saveState, stsOf_cons_sleep] at h2 ⊢
    match i with
    | 0 => exact Finset.mem_insert_self _ _
    | i + 1 =>
      exact ih _ i (Nat.lt_of_succ_lt_succ h) (Nat.lt_of_succ_lt_succ h2)

/-- C4 (checkpoint atomicity per task): after each task's fetch resolves, the
task's derived key is added to the completed set and the whole set is persisted
before the fixed 10-second delay and before the next task (the trace, with the
batch writes stripped, is exactly fetch/persist/sleep per task); the persisted
sets only grow, no key is ever removed, and the i-th persisted set contains the
i-th pending task's key. -/
theorem C4_checkpoint_atomicity (oracle : Nat → Nat → String → List TradeRecord)
    (R : List Reporter) (S0 : Finset String) :
    (runEvents oracle R S0).filter (fun e => !(isFlush e)) =
      ckptSpec S0 (pendingOf R S0) ∧
    List.Pairwise (· ⊆ ·) (stsOf (runEvents oracle R S0)) ∧
    ∀ (i : Nat) (h : i < (pendingOf R S0).length)
      (h2 : i < (stsOf (runEvents oracle R S0)).length),
      keyT ((pendingOf R S0).get ⟨i, h⟩) ∈ (stsOf (runEvents oracle R S0)).get ⟨i, h2⟩ := by
  have h1 : (runEvents oracle R S0).filter (fun e => !(isFlush e)) =
      ckptSpec S0 (pendingOf R S0) := by
    by_cases hp : pendingOf R S0 = []
    · show (if pendingOf R S0 = [] then ([] : List Event)
        else loopEvents oracle S0 (pendingOf R S0)).filter (fun e => !(isFlush e)) = _
      rw [if_pos hp, hp]
      rfl
    · show (if pendingOf R S0 = [] then ([] : List Event)
        else loopEvents oracle S0 (pendingOf R S0)).filter (fun e => !(isFlush e)) = _
      rw [if_neg hp]
      exact loopTasks_filter_ckpt oracle (pendingOf R S0) ⟨none, [], S0⟩
  have hsts : stsOf (runEvents oracle R S0) = stsOf (ckptSpec S0 (pendingOf R S0)) := by
    rw [← h1, stsOf_filter_ckpt]
  refine ⟨h1, ?_, ?_⟩
  · rw [hsts]
    exact ckptSpec_sts_pairwise _ _
  · intro i h h2
    have h2s : i < (stsOf (ckptSpec S0 (pendingOf R S0))).length := by
      rw [← hsts]; exact h2
    have hmem := ckptSpec_sts_get (pendingOf R S0) S0 i h h2s
    rw [List.get_of_eq hsts ⟨i, h2⟩]
    exact hmem

set_option maxRecDepth 4000 in
/-- Witness for C4 at a concrete run: the trace shape holds and the first
persisted set contains the first pending task's key. -/
theorem C4_checkpoint_atomicity_witness :
    (runEvents emptyOracle demoReporters ∅).filter (fun e => !(isFlush e)) =
      ckptSpec ∅ (pendingOf demoReporters ∅) ∧
    keyT ((pendingOf demoReporters ∅).get ⟨0, by decide⟩) ∈
      (stsOf (runEvents emptyOracle demoReporters ∅)).get ⟨0, by decide⟩ :=
  ⟨(C4_checkpoint_atomicity emptyOracle demoReporters ∅).1,
   (C4_checkpoint_atomicity emptyOracle demoReporters ∅).2.2 0 (by decide) (by decide)⟩

/-! ## Claims C7, C10, C1: batch flushes -/

/-- The switch keeps the buffer when not flushing, and then the flush name of
the new reporter is the flush name of the tracked one. -/
theorem switch_snd_cases (cur : Option Nat) (code : Nat) (buf : List TradeRecord) :
    ((switchEvents cur code buf).2 = buf ∧ flushName (some code) = flushName cur) ∨
    (switchEvents cur code buf).2 = [] ∨
    (cur = none ∧ (switchEvents cur code buf).2 = buf) := by
  cases cur with
  | none => exact Or.inr (Or.inr ⟨rfl, rfl⟩)
  | some c =>
    by_cases h : code ≠ c
    · exact Or.inr (Or.inl (by simp [switchEvents, h]))
    · push_neg at h
      exact Or.inl ⟨by simp [switchEvents, h], by rw [h]⟩

/-- Every batch write of the loop carries a non-empty record list: both flush
sites are guarded by a non-emptiness test on the buffer. -/
theorem loopTasks_flush_nonempty (oracle : Nat → Nat → String → List TradeRecord)
    (ts : List Task) : ∀ (st : LoopSt) (n : String) (rs : List TradeRecord),
    Event.saveRaw n rs ∈
      ((loopTasks oracle st ts).2 ++ finalFlush (loopTasks oracle st ts).1) → rs ≠ [] := by
  induction ts with
  | nil =>
    intro st n rs hmem
    simp only [loopTasks, List.nil_append] at hmem
    by_cases h : st.buffer = []
    · simp [finalFlush, h] at hmem
    · simp only [finalFlush, if_neg h, List.mem_singleton, Event.saveRaw.injEq] at hmem
      rw [hmem.2]
      exact h
  | cons t ts ih =>
    intro st n rs hmem
    simp only [loopTasks] at hmem
    rcases List.mem_append.mp hmem with hmem1 | hfin
    · rcases List.mem_append.mp hmem1 with hsw | hbody
      · rcases switch_fst_cases st.current t.code st.buffer with hempty | ⟨heq, hne⟩
        · rw [hempty] at hsw; simp at hsw
        · rw [heq] at hsw
          simp only [List.mem_singleton, Event.saveRaw.injEq] at hsw
          rw [hsw.2]
          exact hne
      · rcases List.mem_cons.mp hbody with h | h
        · simp at h
        rcases List.mem_cons.mp h with h2 | h2
        · simp at h2
        rcases List.mem_cons.mp h2 with h3 | h3
        · simp at h3
        exact ih _ n rs (List.mem_append_left _ h3)
    · exact ih _ n rs (List.mem_append_right _ hfin)

/-- Provenance of flushed records: every record in a batch written by the loop
either was already in the starting buffer, or is literally an element of the
oracle's fetch result for one of the processed tasks, with the batch name
derived from that task's entity code. -/
theorem loopTasks_flush_origin (oracle : Nat → Nat → String → List TradeRecord)
    (ts : List Task) : ∀ (st : LoopSt), (st.current = none → st.buffer = []) →
    ∀ (n : String) (rs : List TradeRecord),
      Event.saveRaw n rs ∈
        ((loopTasks oracle st ts).2 ++ finalFlush (loopTasks oracle st ts).1) →
      ∀ rec ∈ rs,
        (rec ∈ st.buffer ∧ n = flushName st.current) ∨
        ∃ t ∈ ts, rec ∈ oracle t.code t.year t.fcode ∧
          n = "trade_" ++ toString t.code := by
  induction ts with
  | nil =>
    intro st h0 n rs hmem rec hrec
    simp only [loopTasks, List.nil_append] at hmem
    by_cases h : st.buffer = []
    · simp [finalFlush, h] at hmem
    · simp only [finalFlush, if_neg h, List.mem_singleton, Event.saveRaw.injEq] at hmem
      exact Or.inl ⟨hmem.2 ▸ hrec, hmem.1⟩
  | cons t ts ih =>
    intro st h0 n rs hmem rec hrec
    simp only [loopTasks] at hmem
    rcases List.mem_append.mp hmem with hmem1 | hfin
    · rcases List.mem_append.mp hmem1 with hsw | hbody
      · rcases switch_fst_cases st.current t.code st.buffer with hempty | ⟨heq, -⟩
        · rw [hempty] at hsw; simp at hsw
        · rw [heq] at hsw
          simp only [List.mem_singleton, Event.saveRaw.injEq] at hsw
          exact Or.inl ⟨hsw.2 ▸ hrec, hsw.1⟩
      · rcases List.mem_cons.mp hbody with h | h
        · simp at h
        rcases List.mem_cons.mp h with h2 | h2
        · simp at h2
        rcases List.mem_cons.mp h2 with h3 | h3
        · simp at h3
        have hrest := ih ⟨some t.code,
            (if oracle t.code t.year t.fcode = [] then (switchEvents st.current t.code st.buffer).2
              else (switchEvents st.current t.code st.buffer).2 ++ oracle t.code t.year t.fcode),
            insert (keyT t) st.completed⟩
          (fun hc => by cases hc) n rs (List.mem_append_left _ h3) rec hrec
        rcases hrest with ⟨hbuf, hname⟩ | ⟨t', ht', hrec', hname⟩
        · by_cases hrecs : oracle t.code t.year t.fcode = []
          · rw [if_pos hrecs] at hbuf
            rcases switch_snd_cases st.current t.code st.buffer with ⟨hsw2, hfn⟩ | hsw2 | ⟨hcur, hsw2⟩
            · exact Or.inl ⟨hsw2 ▸ hbuf, hname.trans hfn⟩
            · rw [hsw2] at hbuf; simp at hbuf
            · rw [hsw2, h0 hcur] at hbuf; simp at hbuf
          · rw [if_neg hrecs] at hbuf
            rcases List.mem_append.mp hbuf with hswb | horacle
            · rcases switch_snd_cases st.current t.code st.buffer with ⟨hsw2, hfn⟩ | hsw2 | ⟨hcur, hsw2⟩
              · exact Or.inl ⟨hsw2 ▸ hswb, hname.trans hfn⟩
              · rw [hsw2] at hswb; simp at hswb
              · rw [hsw2, h0 hcur] at hswb; simp at hswb
            · exact Or.inr ⟨t, List.mem_cons_self t ts, horacle, hname⟩
        · exact Or.inr ⟨t', List.mem_cons_of_mem t ht', hrec', hname⟩
    · have hrest := ih ⟨some t.code,
          (if oracle t.code t.year t.fcode = [] then (switchEvents st.current t.code st.buffer).2
            else (switchEvents st.current t.code st.buffer).2 ++ oracle t.code t.year t.fcode),
          insert (keyT t) st.completed⟩
        (fun hc => by cases hc) n rs (List.mem_append_right _ hfin) rec hrec
      rcases hrest with ⟨hbuf, hname⟩ | ⟨t', ht', hrec', hname⟩
      · by_cases hrecs : oracle t.code t.year t.fcode = []
        · rw [if_pos hrecs] at hbuf
          rcases switch_snd_cases st.current t.code st.buffer with ⟨hsw2, hfn⟩ | hsw2 | ⟨hcur, hsw2⟩
          · exact Or.inl ⟨hsw2 ▸ hbuf, hname.trans hfn⟩
          · rw [hsw2] at hbuf; simp at hbuf
          · rw [hsw2, h0 hcur] at hbuf; simp at hbuf
        · rw [if_neg hrecs] at hbuf
          rcases List.mem_append.mp hbuf with hswb | horacle
          · rcases switch_snd_cases st.current t.code st.buffer with ⟨hsw2, hfn⟩ | hsw2 | ⟨hcur, hsw2⟩
            · exact Or.inl ⟨hsw2 ▸ hswb, hname.trans hfn⟩
            · rw [hsw2] at hswb; simp at hswb
            · rw [hsw2, h0 hcur] at hswb; simp at hswb
          · exact Or.inr ⟨t, List.mem_cons_self t ts, horacle, hname⟩
      · exact Or.inr ⟨t', List.mem_cons_of_mem t ht', hrec', hname⟩

/-- Appending on the left of a string is cancellable. -/
theorem string_append_left_cancel {s a b : String} (h : s ++ a = s ++ b) : a = b := by
  apply String.ext
  have hd := congrArg String.data h
  rw [String.data_append, String.data_append] at hd
  exact List.append_cancel_left hd

/-- C10 (implicit, no empty trade batch): every raw-storage batch write of the
run carries a non-empty record list; and a reporter all of whose pending tasks
resolve to empty results produces no `trade_{code}` artifact at all. -/
theorem C10_no_empty_flush (oracle : Nat → Nat → String → List TradeRecord)
    (R : List Reporter) (S0 : Finset String) :
    (∀ (n : String) (rs : List TradeRecord),
      Event.saveRaw n rs ∈ runEvents oracle R S0 → rs ≠ []) ∧
    (∀ e : Nat, (∀ t ∈ pendingOf R S0, t.code = e → oracle t.code t.year t.fcode = []) →
      ∀ rs : List TradeRecord,
        Event.saveRaw ("trade_" ++ toString e) rs ∉ runEvents oracle R S0) := by
  have hrun : runEvents oracle R S0 = if pendingOf R S0 = [] then []
      else loopEvents oracle S0 (pendingOf R S0) := rfl
  constructor
  · intro n rs hmem
    rw [hrun] at hmem
    by_cases hp : pendingOf R S0 = []
    · rw [if_pos hp] at hmem; simp at hmem
    · rw [if_neg hp] at hmem
      exact loopTasks_flush_nonempty oracle (pendingOf R S0) ⟨none, [], S0⟩ n rs hmem
  · intro e he rs hmem
    rw [hrun] at hmem
    by_cases hp : pendingOf R S0 = []
    · rw [if_pos hp] at hmem; simp at hmem
    · rw [if_neg hp] at hmem
      have hne := loopTasks_flush_nonempty oracle (pendingOf R S0) ⟨none, [], S0⟩ _ _ hmem
      obtain ⟨rec, hrec⟩ := List.exists_mem_of_ne_nil rs hne
      have horig := loopTasks_flush_origin oracle (pendingOf R S0) ⟨none, [], S0⟩
        (fun _ => rfl) _ _ hmem rec hrec
      rcases horig with ⟨hbuf, -⟩ | ⟨t, ht, hrec', hname⟩
      · simp at hbuf
      · have hcode : toString e = toString t.code := string_append_left_cancel hname
        have hec : e = t.code :=
          repr_injective (by rwa [toString_nat, toString_nat] at hcode)
        have hempty := he t ht hec.symm
        rw [hempty] at hrec'
        simp at hrec'

set_option maxRecDepth 4000 in
/-- Witness for C10: a run whose fetches all return a record flushes a
non-empty batch, and a reporter with only empty fetches produces no artifact. -/
theorem C10_no_empty_flush_witness :
    List.replicate 70 demoRecord ≠ [] ∧
    Event.saveRaw ("trade_" ++ toString 9) [] ∉ runEvents emptyOracle [⟨9, "Nodata", ""⟩] ∅ :=
  ⟨(C10_no_empty_flush demoOracle demoReporters ∅).1 "trade_7"
      (List.replicate 70 demoRecord) (by decide),
   (C10_no_empty_flush emptyOracle [⟨9, "Nodata", ""⟩] ∅).2 9 (fun _ _ _ => rfl) []⟩

set_option maxRecDepth 4000 in
/-- C1 is false on the code: no record is ever augmented before storage.  In a
run over one pending reporter (code 7) whose every fetch returns the single
record `{}` (an empty JSON object, which the API may legitimately produce
since the connector treats records as opaque), the task (7, 1990, M) is
pending, its fetch result is non-empty, and the whole flushed batch consists
of the records exactly as fetched — empty objects that carry neither the
entity code 7 nor the period 1990 in any field. -/
theorem C1_counterexample :
    (⟨7, "Testland", 1990, "M", "imports"⟩ : Task) ∈ pendingOf demoReporters ∅ ∧
    emptyObjOracle 7 1990 "M" = [[]] ∧
    flushesOf (runEvents emptyObjOracle demoReporters ∅) =
      [("trade_7", List.replicate 70 ([] : TradeRecord))] ∧
    ¬ carriesProvenance [] 7 1990 := by
  refine ⟨by decide, rfl, by decide, ?_⟩
  intro hcar
  obtain ⟨⟨k, v, hkv, -⟩, -⟩ := hcar
  simp at hkv

/-- C1 amended: records are written to raw storage exactly as returned by the
fetch, with no augmentation; the provenance the batch carries is its name:
every record of a flushed batch is literally an element of the fetch result of
one of the pending tasks, and the batch's name derives from that task's entity
code. -/
theorem C1_amended_records_stored_verbatim (oracle : Nat → Nat → String → List TradeRecord)
    (R : List Reporter) (S0 : Finset String) (n : String) (rs : List TradeRecord)
    (hmem : Event.saveRaw n rs ∈ runEvents oracle R S0) :
    ∀ rec ∈ rs, ∃ t ∈ pendingOf R S0,
      rec ∈ oracle t.code t.year t.fcode ∧ n = "trade_" ++ toString t.code := by
  intro rec hrec
  have hrun : runEvents oracle R S0 = if pendingOf R S0 = [] then []
      else loopEvents oracle S0 (pendingOf R S0) := rfl
  rw [hrun] at hmem
  by_cases hp : pendingOf R S0 = []
  · rw [if_pos hp] at hmem; simp at hmem
  · rw [if_neg hp] at hmem
    have horig := loopTasks_flush_origin oracle (pendingOf R S0) ⟨none, [], S0⟩
      (fun _ => rfl) n rs hmem rec hrec
    rcases horig with ⟨hbuf, -⟩ | h
    · simp at hbuf
    · exact h

set_option maxRecDepth 4000 in
/-- Witness for the amended C1 at a concrete run. -/
theorem C1_amended_witness :
    ∃ t ∈ pendingOf demoReporters ∅,
      demoRecord ∈ demoOracle t.code t.year t.fcode ∧
      "trade_7" = "trade_" ++ toString t.code :=
  C1_amended_records_stored_verbatim demoOracle demoReporters ∅ "trade_7"
    (List.replicate 70 demoRecord) (by decide) demoRecord (by decide)

/-- C7 (entity-keyed batch flush): the buffer is flushed under a name derived
from the entity code exactly when the loop advances to a task of a different
entity, with one more flush of the non-empty remainder at termination; so for
a pending task sequence over entities [A, A, B, B, B] where each task returns
10 records, exactly two flush calls occur, carrying the accumulated records
with payload sizes 20 and 30, under the names derived from A and B. -/
theorem C7_entity_batch_flush (oracle : Nat → Nat → String → List TradeRecord)
    (S0 : Finset String) (A B : Nat)
    (nm₁ nm₂ nm₃ nm₄ nm₅ : String) (y₁ y₂ y₃ y₄ y₅ : Nat)
    (fc₁ fc₂ fc₃ fc₄ fc₅ fn₁ fn₂ fn₃ fn₄ fn₅ : String)
    (hAB : A ≠ B)
    (h₁ : (oracle A y₁ fc₁).length = 10) (h₂ : (oracle A y₂ fc₂).length = 10)
    (h₃ : (oracle B y₃ fc₃).length = 10) (h₄ : (oracle B y₄ fc₄).length = 10)
    (h₅ : (oracle B y₅ fc₅).length = 10) :
    flushesOf (loopEvents oracle S0
        [⟨A, nm₁, y₁, fc₁, fn₁⟩, ⟨A, nm₂, y₂, fc₂, fn₂⟩, ⟨B, nm₃, y₃, fc₃, fn₃⟩,
         ⟨B, nm₄, y₄, fc₄, fn₄⟩, ⟨B, nm₅, y₅, fc₅, fn₅⟩]) =
      [("trade_" ++ toString A, oracle A y₁ fc₁ ++ oracle A y₂ fc₂),
       ("trade_" ++ toString B, oracle B y₃ fc₃ ++ oracle B y₄ fc₄ ++ oracle B y₅ fc₅)] ∧
    (flushesOf (loopEvents oracle S0
        [⟨A, nm₁, y₁, fc₁, fn₁⟩, ⟨A, nm₂, y₂, fc₂, fn₂⟩, ⟨B, nm₃, y₃, fc₃, fn₃⟩,
         ⟨B, nm₄, y₄, fc₄, fn₄⟩, ⟨B, nm₅, y₅, fc₅, fn₅⟩])).map
        (fun p => (p.1, p.2.length)) =
      [("trade_" ++ toString A, 20), ("trade_" ++ toString B, 30)] := by
  have e₁ : oracle A y₁ fc₁ ≠ [] := by intro hc; rw [hc] at h₁; simp at h₁
  have e₂ : oracle A y₂ fc₂ ≠ [] := by intro hc; rw [hc] at h₂; simp at h₂
  have e₃ : oracle B y₃ fc₃ ≠ [] := by intro hc; rw [hc] at h₃; simp at h₃
  have e₄ : oracle B y₄ fc₄ ≠ [] := by intro hc; rw [hc] at h₄; simp at h₄
  have e₅ : oracle B y₅ fc₅ ≠ [] := by intro hc; rw [hc] at h₅; simp at h₅
  have hBA : B ≠ A := Ne.symm hAB
  have hflush : flushesOf (loopEvents oracle S0
      [⟨A, nm₁, y₁, fc₁, fn₁⟩, ⟨A, nm₂, y₂, fc₂, fn₂⟩, ⟨B, nm₃, y₃, fc₃, fn₃⟩,
       ⟨B, nm₄, y₄, fc₄, fn₄⟩, ⟨B, nm₅, y₅, fc₅, fn₅⟩]) =
      [("trade_" ++ toString A, oracle A y₁ fc₁ ++ oracle A y₂ fc₂),
       ("trade_" ++ toString B, oracle B y₃ fc₃ ++ oracle B y₄ fc₄ ++ oracle B y₅ fc₅)] := by
    simp [loopEvents, loopTasks, switchEvents, finalFlush, flushName, flushesOf,
      List.filterMap_append, List.filterMap_cons, e₁, e₂, e₃, e₄, e₅, hBA,
      List.append_eq_nil]
  refine ⟨hflush, ?_⟩
  rw [hflush]
  simp [h₁, h₂, h₃, h₄, h₅]

/-- Witness for C7 at a concrete oracle and task sequence. -/
theorem C7_entity_batch_flush_witness :
    flushesOf (loopEvents tenRecordOracle ∅
        [⟨1, "Alpha", 1990, "M", "imports"⟩, ⟨1, "Alpha", 1990, "X", "exports"⟩,
         ⟨2, "Beta", 1990, "M", "imports"⟩, ⟨2, "Beta", 1990, "X", "exports"⟩,
         ⟨2, "Beta", 1991, "M", "imports"⟩]) =
      [("trade_" ++ toString 1, tenRecordOracle 1 1990 "M" ++ tenRecordOracle 1 1990 "X"),
       ("trade_" ++ toString 2, tenRecordOracle 2 1990 "M" ++ tenRecordOracle 2 1990 "X" ++
          tenRecordOracle 2 1991 "M")] ∧
    (flushesOf (loopEvents tenRecordOracle ∅
        [⟨1, "Alpha", 1990, "M", "imports"⟩, ⟨1, "Alpha", 1990, "X", "exports"⟩,
         ⟨2, "Beta", 1990, "M", "imports"⟩, ⟨2, "Beta", 1990, "X", "exports"⟩,
         ⟨2, "Beta", 1991, "M", "imports"⟩])).map (fun p => (p.1, p.2.length)) =
      [("trade_" ++ toString 1, 20), ("trade_" ++ toString 2, 30)] :=
  C7_entity_batch_flush tenRecordOracle ∅ 1 2 "Alpha" "Alpha" "Beta" "Beta" "Beta"
    1990 1990 1990 1990 1991 "M" "X" "M" "X" "M" "imports" "exports" "imports" "exports"
    "imports" (by decide) (by decide) (by decide) (by decide) (by decide) (by decide)

end UnComtrade
